import Mathlib

/-!
# Shallow embedding of the 3speak storage-admin retention/purge engine

This file embeds, in Lean, the parts of the repository that the spec's
claims are about:

* the storage classifier and S3 locator derivation
  (`src/src/services/database.ts`: `getVideoStorageType`, `isRealS3Filename`,
  `getS3Paths`, `getIpfsHash`; `IpfsService.extractHashFromFilename`),
* candidate selection (`getVideosForCleanup`, `getVideosByOwner`,
  `getVideosByCriteria`),
* the backend adapters (`IpfsService.unpinHash`, `S3Service.deleteObject`,
  `S3Service.batchDelete`; `deleteObjectsWithPrefix` is modelled from the
  spec because only its call sites appear in the sources),
* the execution loops of the `cleanup` command (both the version in
  `src/src/commands/cleanup.ts` and the `processVideoCleanup` variant) and
  of the `nuke-account` command.

Dates are modelled as integers (`created < now - days` for the age cutoffs),
MongoDB string fields as `Option String` where `none` stands for a missing or
null field, and network effects as oracles (`rmOk`, `delOk`) saying whether a
given destructive request succeeds.  Adapter calls made by the engine are
recorded in an explicit trace (`EngineOp`), which is what the claims about
"backend mutations" and "markCleaned writes" quantify over.
-/

namespace StorageAdmin

/-! ## String helpers mirroring the JS regexes and operations -/

/-- `s.startsWith pat`, computed on the underlying character lists (the
character-list operations, unlike `String.startsWith`, evaluate inside the
kernel, which the concrete witnesses below rely on). -/
def strStartsWith (s pat : String) : Bool := pat.data.isPrefixOf s.data

/-- `s.includes(c)` on the underlying character list. -/
def strContainsChar (s : String) (c : Char) : Bool := s.data.contains c

/-- Helper of `strSplitOn`: split `l` at non-overlapping occurrences of the
separator `c₀ :: sepRest`, `acc` holding the current segment reversed.  The
structural fuel argument (instantiated with `l.length`, an upper bound on
the number of steps since every step consumes at least one character) keeps
the recursion kernel-reducible. -/
def splitOnListAux (c₀ : Char) (sepRest : List Char) :
    Nat → List Char → List Char → List (List Char)
  | _, [], acc => [acc.reverse]
  | 0, l, acc => [acc.reverse ++ l]
  | fuel + 1, c :: rest, acc =>
    if (c₀ :: sepRest).isPrefixOf (c :: rest) then
      acc.reverse :: splitOnListAux c₀ sepRest fuel (rest.drop sepRest.length) []
    else
      splitOnListAux c₀ sepRest fuel rest (c :: acc)

/-- `s.split(sep)` (same semantics as `String.splitOn`), computed on
character lists. -/
def strSplitOn (s sep : String) : List String :=
  match sep.data with
  | [] => [s]
  | c :: cs => (splitOnListAux c cs s.data.length s.data []).map fun l => ⟨l⟩

/-- `l.join(sep)`, computed structurally. -/
def strIntercalate (sep : String) : List String → String
  | [] => ""
  | [x] => x
  | x :: y :: rest => x ++ sep ++ strIntercalate sep (y :: rest)

/-- `s.toLowerCase()`, computed on the character list. -/
def strToLower (s : String) : String := ⟨s.data.map Char.toLower⟩

/-- `[a-zA-Z0-9]` as used in the filename-extension and Qm-hash regexes. -/
def isAlnum (c : Char) : Bool := c.isAlpha || c.isDigit

/-- `[a-f0-9]`: a lowercase hexadecimal digit. -/
def isLowerHexDigit (c : Char) : Bool := ('a' ≤ c && c ≤ 'f') || c.isDigit

/-- Test for `/\.[a-zA-Z0-9]{2,5}$/` of `isRealS3Filename`: the string ends
with a literal dot followed by 2 to 5 alphanumeric characters. -/
def hasFileExtension (s : String) : Bool :=
  let cs := s.data
  let n := cs.length
  (List.range 4).any fun i =>
    let k := i + 2
    decide (k + 1 ≤ n) && (cs.getD (n - k - 1) ' ' == '.')
      && ((cs.drop (n - k)).all isAlnum)

/-- Test for `/^[a-f0-9]{32}$/`: a bare 32-character lowercase hex token
(an upload-session id, not a real S3 key). -/
def isJustHash (s : String) : Bool :=
  s.length == 32 && s.data.all isLowerHexDigit

/-- Test for `/^Qm[a-zA-Z0-9]{44}$/` used by
`IpfsService.extractHashFromFilename`. -/
def isQmHash (s : String) : Bool :=
  s.length == 46 && strStartsWith s "Qm" && (s.data.drop 2).all isAlnum

/-- A base58 character, per the alphabet of `IPFS_HASH_REGEX` in
`nuke-account.ts`: `[1-9A-HJ-NP-Za-km-z]`. -/
def isBase58Char (c : Char) : Bool :=
  ('1' ≤ c && c ≤ '9') || ('A' ≤ c && c ≤ 'H') || ('J' ≤ c && c ≤ 'N')
    || ('P' ≤ c && c ≤ 'Z') || ('a' ≤ c && c ≤ 'k') || ('m' ≤ c && c ≤ 'z')

/-- Test for `IPFS_HASH_REGEX = /^Qm[1-9A-HJ-NP-Za-km-z]{44}$/`. -/
def isStrictIpfsHash (s : String) : Bool :=
  s.length == 46 && strStartsWith s "Qm" && (s.data.drop 2).all isBase58Char

/-- JS `s.replace(pat, "")` with a string pattern removes only the FIRST
occurrence of `pat` (unlike Lean's `String.replace`, which removes all). -/
def replaceFirst (s pat : String) : String :=
  match strSplitOn s pat with
  | [] => s
  | [x] => x
  | x :: y :: rest => x ++ strIntercalate pat (y :: rest)

/-- JS `s.split('/').pop()`: the segment after the last slash (empty for a
trailing slash). -/
def lastSegment (s : String) : String :=
  (strSplitOn s "/").getLastD ""

/-- Model of JS `String.prototype.trim`: strip whitespace from both ends. -/
def jsTrim (s : String) : String :=
  ⟨((s.data.dropWhile Char.isWhitespace).reverse.dropWhile Char.isWhitespace).reverse⟩

/-- JS truthiness of a nullable string field: missing/null and `''` are
falsy. -/
def strTruthy : Option String → Bool
  | none => false
  | some s => s != ""

/-! ## The data model (`src/src/types/index.ts`, `Video`) -/

/-- The three-way backend classification returned by
`DatabaseService.getVideoStorageType`. -/
inductive StorageType where
  | ipfs
  | s3
  | unknown
deriving DecidableEq, Repr

/-- A catalog record (`Video` in `types/index.ts`), restricted to the fields
the engine reads or writes.  `created` is an integer timestamp; `none` on a
string field stands for a missing or null value. -/
structure Video where
  id : String
  owner : String := ""
  status : String := ""
  created : Int := 0
  size : Nat := 0
  views : Option Int := none
  filename : Option String := none
  originalFilename : Option String := none
  permlink : Option String := none
  ipfshash : Option String := none
  videoV2 : Option String := none
  videoV1 : Option String := none
  videoManifest : Option String := none
  cleanedUp : Bool := false
  cleanupReason : Option String := none
  cleanupStorageType : Option StorageType := none
  originalStatus : Option String := none
  wasManuallyDeleted : Bool := false
deriving DecidableEq, Repr

/-! ## The storage classifier (`database.ts` lines 211-241) -/

/-- `DatabaseService.isRealS3Filename`. -/
def isRealS3Filename (filename : String) : Bool :=
  if filename == "" || filename == "null" || filename == "undefined"
      || strStartsWith filename "ipfs://" then
    false
  else
    (hasFileExtension filename || strContainsChar filename '/') && !(isJustHash filename)

/-- `DatabaseService.getVideoStorageType`: `'ipfs'` iff the filename starts
with `ipfs://`, else `'s3'` iff the filename is truthy and a real S3
filename, else `'unknown'`. -/
def getVideoStorageType (v : Video) : StorageType :=
  match v.filename with
  | some f =>
    if strStartsWith f "ipfs://" then .ipfs
    else if f != "" && isRealS3Filename f then .s3
    else .unknown
  | none => .unknown

/-! ## S3 locator derivation (`database.ts` lines 244-295) -/

/-- The `{files, prefixes}` pair returned by `DatabaseService.getS3Paths`. -/
structure S3Paths where
  files : List String
  prefixes : List String
deriving DecidableEq, Repr

/-- First-occurrence deduplication, the semantics of JS
`[...new Set(list)]`. -/
def dedupFirstAux (seen : List String) : List String → List String
  | [] => []
  | a :: l =>
    if a ∈ seen then dedupFirstAux seen l
    else a :: dedupFirstAux (a :: seen) l

/-- First-occurrence deduplication starting from an empty seen-set. -/
def dedupFirst (l : List String) : List String := dedupFirstAux [] l

/-- The final filter of `getS3Paths`:
`path => path && path.trim() !== ''`. -/
def s3PathKeep (p : String) : Bool := p != "" && jsTrim p != ""

/-- The permlink-derived playlist files pushed by `getS3Paths` (JS `if
(video.permlink)` is a truthiness check). -/
def permlinkFilesOf (v : Video) : List String :=
  match v.permlink with
  | some p =>
    if p != "" then
      [p ++ "/1080p.m3u8", p ++ "/720p.m3u8", p ++ "/480p.m3u8",
       p ++ "/360p.m3u8", p ++ "/default.m3u8"]
    else []
  | none => []

/-- The permlink-derived HLS segment-folder prefixes pushed by
`getS3Paths`. -/
def permlinkPfxsOf (v : Video) : List String :=
  match v.permlink with
  | some p =>
    if p != "" then
      [p ++ "/1080p/", p ++ "/720p/", p ++ "/480p/", p ++ "/360p/",
       p ++ "/thumbnails/", p ++ "/"]
    else []
  | none => []

/-- The processed-filename entry pushed by `getS3Paths` (present and not
`ipfs://`-prefixed). -/
def fileEntryOf (v : Video) : List String :=
  match v.filename with
  | some f => if f != "" && !strStartsWith f "ipfs://" then [f] else []
  | none => []

/-- The original-source entries pushed by `getS3Paths`: the original
locator itself plus, when its last path segment (`split('/').pop()`) is
non-empty, the four speculative `originals/ uploads/ raw/ source/` keys. -/
def originalEntriesOf (v : Video) : List String :=
  match v.originalFilename with
  | some o =>
    if o != "" && !strStartsWith o "ipfs://" then
      o :: (if lastSegment o != "" then
        ["originals/" ++ lastSegment o, "uploads/" ++ lastSegment o,
         "raw/" ++ lastSegment o, "source/" ++ lastSegment o]
      else [])
    else []
  | none => []

/-- `DatabaseService.getS3Paths`: permlink-derived playlist files and HLS
segment-folder prefixes, the processed filename, the original source file and
four speculative `originals/ uploads/ raw/ source/` keys, deduplicated and
stripped of empty/whitespace-only entries. -/
def getS3Paths (v : Video) : S3Paths :=
  { files := dedupFirst
      ((permlinkFilesOf v ++ fileEntryOf v ++ originalEntriesOf v).filter s3PathKeep)
    prefixes := dedupFirst ((permlinkPfxsOf v).filter s3PathKeep) }

/-! ## IPFS hash extraction (`ipfs.ts`, `extractHashFromFilename`;
`nuke-account.ts`, `collectIpfsHashes`) -/

/-- `IpfsService.extractHashFromFilename`. -/
def extractHashFromFilename (filename : String) : Option String :=
  if filename == "" then none
  else if strStartsWith filename "ipfs://" then
    some ((strSplitOn (replaceFirst filename "ipfs://") "/").headD "")
  else if isQmHash filename then some filename
  else if strContainsChar filename '/' then
    let potential := replaceFirst ((strSplitOn filename "/").headD "") "ipfs://"
    if isQmHash potential then some potential else none
  else none

/-- `collectIpfsHashes` from `nuke-account.ts`: gather strict base58 hashes
from the record's candidate fields, first-occurrence deduplicated. -/
def collectIpfsHashes (v : Video) : List String :=
  let candidates := [v.ipfshash, v.filename, v.videoV2, v.videoV1, v.videoManifest]
  let step := fun (acc : List String) (c : Option String) =>
    match c with
    | none => acc
    | some s =>
      if s == "" then acc
      else
        let extracted :=
          match extractHashFromFilename s with
          | some e => if isStrictIpfsHash e then some e else none
          | none => none
        match extracted with
        | some e => acc ++ [e]
        | none =>
          if isStrictIpfsHash (jsTrim s) then acc ++ [jsTrim s] else acc
  dedupFirst (candidates.foldl step [])

/-! ## Candidate selection (`database.ts`)

The video collection is modelled as a `List Video`.  A `find(query)` with a
`sort` and `limit` is modelled as filter, then sort, then limit: MongoDB
applies the sort before the limit regardless of cursor-call order, and
`limit(0)` means "no limit". -/

/-- Insertion into a list sorted by `le` (used to model MongoDB sorts). -/
def insertLe (le : α → α → Bool) (a : α) : List α → List α
  | [] => [a]
  | b :: l => if le a b then a :: b :: l else b :: insertLe le a l

/-- Insertion sort by `le`. -/
def sortLe (le : α → α → Bool) : List α → List α
  | [] => []
  | a :: l => insertLe le a (sortLe le l)

/-- MongoDB `limit`: `limit(0)` is "no limit". -/
def mongoLimit (n : Nat) (l : List α) : List α :=
  if n = 0 then l else l.take n

/-- Ascending comparison on `created` (Mongo `sort({created: 1})`). -/
def createdAsc (u v : Video) : Bool := decide (u.created ≤ v.created)

/-- Descending comparison on `created` (Mongo `sort({created: -1})`). -/
def createdDesc (u v : Video) : Bool := decide (v.created ≤ u.created)

/-- The `$or` of `{views: {$lt: m}}, {views: {$exists: false}}, {views: null}`
used by the low-engagement and `maxViews` queries. -/
def viewsLtOrMissing (v : Video) (m : Int) : Bool :=
  match v.views with
  | some x => decide (x < m)
  | none => true

/-- The four selection modes of `DatabaseService.getVideosForCleanup`. -/
inductive CleanupKind where
  | bannedUsers
  | stuckUploads
  | lowEngagement
  | adminDeleted
deriving DecidableEq, Repr

/-- The base query of `getVideosForCleanup`: the record points at some
storage (`filename` or `ipfshash` exists and is neither null nor empty). -/
def baseQueryOk (v : Video) : Bool :=
  strTruthy v.filename || strTruthy v.ipfshash

/-- The per-mode clause of `getVideosForCleanup`'s query (`banned` is the
list of banned usernames, `now` the current time, in the same units as
`Video.created`). -/
def cleanupKindOk (banned : List String) (now olderThanDays viewThreshold : Int) :
    CleanupKind → Video → Bool
  | .bannedUsers, v => banned.contains v.owner
  | .stuckUploads, v =>
    !(["published", "scheduled", "deleted"].contains v.status)
      && decide (v.created < now - olderThanDays)
  | .adminDeleted, v => v.status == "deleted"
  | .lowEngagement, v => v.status == "published" && viewsLtOrMissing v viewThreshold

/-- `DatabaseService.getVideosForCleanup`: base query, `cleanedUp ≠ true`,
the per-mode clause, sorted oldest-first, bounded by `limit`. -/
def getVideosForCleanup (banned : List String) (now : Int) (store : List Video)
    (kind : CleanupKind) (limit : Nat) (olderThanDays viewThreshold : Int) :
    List Video :=
  mongoLimit limit (sortLe createdAsc (store.filter fun v =>
    baseQueryOk v && !v.cleanedUp
      && cleanupKindOk banned now olderThanDays viewThreshold kind v))

/-- `DatabaseService.getVideosByOwner`: case-insensitive exact owner match
(the source uses an anchored `^owner$` regex with the `i` option),
`cleanedUp ≠ true` unless `includeCleaned`, optional status filter, sorted
oldest-first, limited only when `limit > 0`. -/
def getVideosByOwner (store : List Video) (owner : String)
    (includeCleaned : Bool) (limit : Nat) (statuses : List String) :
    List Video :=
  let sorted := sortLe createdAsc (store.filter fun v =>
    strToLower v.owner == strToLower owner
      && (includeCleaned || !v.cleanedUp)
      && (statuses.isEmpty || statuses.contains v.status))
  if limit > 0 then sorted.take limit else sorted

/-- The ad hoc criteria object consumed by
`DatabaseService.getVideosByCriteria`.  `excludeCleaned` is accepted by the
call sites (the admin-deleted path of `cleanupCommandInternal` passes
`excludeCleaned: true`) but `getVideosByCriteria` never reads it; it is kept
here to mirror that call contract. -/
structure Criteria where
  bannedUsers : Bool := false
  ageThresholdDays : Option Int := none
  maxViews : Option Int := none
  minViews : Option Int := none
  status : List String := []
  orphaned : Bool := false
  storageTypeC : Option StorageType := none
  excludeCleaned : Bool := false
deriving Repr

/-- The `$or` branch that `storageType: 'unknown'` installs (overwriting the
`maxViews` `$or` if both were set, as the source's query-object assignment
does): filename missing, null, `''`, `'null'`, `'undefined'`, or a bare
32-hex token that is not `ipfs://`-prefixed. -/
def unknownStorageOr (v : Video) : Bool :=
  match v.filename with
  | none => true
  | some f =>
    f == "" || f == "null" || f == "undefined"
      || (!strStartsWith f "ipfs://" && isJustHash f)

/-- The `$and` clauses that `storageType: 's3'` appends: filename exists,
not in `[null, '', 'null', 'undefined']`, not `ipfs://`-prefixed, has an
extension or a slash, and is not a bare 32-hex token. -/
def s3StorageAnd (v : Video) : Bool :=
  match v.filename with
  | none => false
  | some f =>
    f != "" && f != "null" && f != "undefined" && !strStartsWith f "ipfs://"
      && (hasFileExtension f || strContainsChar f '/') && !isJustHash f

/-- The match predicate of the query object that `getVideosByCriteria`
assembles.  Note that nothing here looks at `cleanedUp`: the function has no
exclusion of already-cleaned records. -/
def matchesCriteria (banned : List String) (now : Int) (c : Criteria)
    (v : Video) : Bool :=
  let ownerOk := !c.bannedUsers || banned.contains v.owner
  let createdOk :=
    match c.ageThresholdDays with
    | some d => decide (v.created < now - d)
    | none => true
  let orOk :=
    if c.storageTypeC == some .unknown then unknownStorageOr v
    else
      match c.maxViews with
      | some m => viewsLtOrMissing v m
      | none => true
  let minViewsOk :=
    match c.minViews with
    | some m =>
      match v.views with
      | some x => decide (m ≤ x)
      | none => false
    | none => true
  let statusOk := c.status.isEmpty || c.status.contains v.status
  let orphanedOk :=
    !c.orphaned || (!strTruthy v.filename && !strTruthy v.ipfshash)
  let s3Ok := c.storageTypeC != some .s3 || s3StorageAnd v
  let ipfsOk :=
    c.storageTypeC != some .ipfs
      || (match v.filename with
          | some f => strStartsWith f "ipfs://"
          | none => false)
  ownerOk && createdOk && orOk && minViewsOk && statusOk && orphanedOk
    && s3Ok && ipfsOk

/-- `DatabaseService.getVideosByCriteria`: query match, sorted NEWEST-first
(`sort({created: -1})`), bounded by `limit`, then a client-side re-check of
the storage classification when a storage-type filter was requested. -/
def getVideosByCriteria (banned : List String) (now : Int) (store : List Video)
    (c : Criteria) (limit : Nat) : List Video :=
  let base := mongoLimit limit
    (sortLe createdDesc (store.filter (matchesCriteria banned now c)))
  match c.storageTypeC with
  | some st => base.filter fun v => getVideoStorageType v == st
  | none => base

/-! ## Backend adapters (`ipfs.ts`, `s3.ts`)

The two backends are modelled together: `pinned` is the set of pinned IPFS
hashes, `objects` the set of S3 keys.  `rmOk`/`delOk` are oracles saying
whether a given `pin/rm` or `DeleteObjectCommand` request succeeds (a `false`
models an HTTP failure or a thrown request error, both of which the source
converts into a `false` return). -/

/-- The state of the two storage backends plus the success oracles for
destructive requests. -/
structure Backend where
  pinned : List String
  objects : List String
  rmOk : String → Bool
  delOk : String → Bool

/-- A low-level destructive request actually sent to a backend (the
`pin/rm` HTTP call, or the `DeleteObjectCommand`). -/
inductive BackendReq where
  | pinRm (hash : String)
  | delObj (key : String)
deriving DecidableEq, Repr

/-- `IpfsService.isPinned`. -/
def isPinned (b : Backend) (h : String) : Bool := b.pinned.contains h

/-- `S3Service.objectExists`. -/
def objectExists (b : Backend) (k : String) : Bool := b.objects.contains k

/-- The outcome of one adapter call: the returned boolean, the new backend
state, and the destructive requests that were actually sent. -/
structure AdapterStep where
  ok : Bool
  backend : Backend
  reqs : List BackendReq

/-- `IpfsService.unpinHash`: check `isPinned` first; if not pinned return
success without sending `pin/rm`; otherwise send `pin/rm` and report its
outcome (a failed or throwing request yields `false`). -/
def unpinHash (b : Backend) (h : String) : AdapterStep :=
  if isPinned b h then
    if b.rmOk h then
      ⟨true, { b with pinned := b.pinned.erase h }, [.pinRm h]⟩
    else ⟨false, b, [.pinRm h]⟩
  else ⟨true, b, []⟩

/-- `S3Service.deleteObject`: check `objectExists` first; if absent return
success without sending a delete; otherwise send `DeleteObjectCommand` and
report its outcome. -/
def deleteObject (b : Backend) (k : String) : AdapterStep :=
  if objectExists b k then
    if b.delOk k then
      ⟨true, { b with objects := b.objects.erase k }, [.delObj k]⟩
    else ⟨false, b, [.delObj k]⟩
  else ⟨true, b, []⟩

/-- The `{deleted, errors}` result of a prefix deletion. -/
structure PfxDeleteResult where
  deleted : Nat
  errors : Nat
deriving DecidableEq, Repr

/-- Helper of `chunksOfSucc` with a structural fuel argument
(instantiated with the list length, an upper bound on the number of chunks
since every chunk consumes at least one element). -/
def chunksFuel (n : Nat) : Nat → List α → List (List α)
  | _, [] => []
  | 0, l => [l]
  | fuel + 1, a :: l => (a :: l.take n) :: chunksFuel n fuel (l.drop n)

/-- Chunks of size `n + 1` (used to model paginated listing with a page
size of 1000). -/
def chunksOfSucc (n : Nat) (l : List α) : List (List α) :=
  chunksFuel n l.length l

/-- One deletion within a prefix-deletion batch. -/
def pfxDeleteStep (acc : PfxDeleteResult × Backend) (k : String) :
    PfxDeleteResult × Backend :=
  let (r, b) := acc
  if b.delOk k then
    ({ r with deleted := r.deleted + 1 }, { b with objects := b.objects.erase k })
  else ({ r with errors := r.errors + 1 }, b)

/-- Modelled from the spec: `S3Service.deleteObjectsWithPrefix` is absent
from `src/src/services/s3.ts`; only its call sites exist (`cleanup.ts`,
`nuke-account.ts`, `slim-user.ts`, `storage-diet.ts`).  Per the spec it
performs paginated listing under the prefix (pages of up to 1000 keys)
followed by batched deletion, and returns `{deleted, errors}`; an empty
prefix yields zero deleted and zero errors rather than a failure. -/
def deleteObjectsWithPfx (b : Backend) (pfx : String) :
    PfxDeleteResult × Backend :=
  let pages := chunksOfSucc 999 (b.objects.filter fun k => strStartsWith k pfx)
  pages.foldl (fun acc page => page.foldl pfxDeleteStep acc) (⟨0, 0⟩, b)

/-! ## Persistent-state writes (`database.ts`, `markVideoAsCleanedUp`) -/

/-- `DatabaseService.markVideoAsCleanedUp`: set `status` to `deleted`, stamp
the cleanup metadata and `cleanedUp: true`; `wasManuallyDeleted` records
whether the re-fetched row was already `deleted`. -/
def markVideoAsCleanedUp (store : List Video) (id reason : String)
    (st : StorageType) (origStatus : String) : List Video :=
  store.map fun v =>
    if v.id == id then
      { v with
        status := "deleted", cleanedUp := true,
        cleanupReason := some reason, cleanupStorageType := some st,
        originalStatus := some origStatus,
        wasManuallyDeleted := v.status == "deleted" }
    else v

/-- The cleanup-reason string assembled by the cleanup command. -/
def cleanupReasonFor (ct : CleanupKind) (status : String) : String :=
  match ct with
  | .adminDeleted => "Automated cleanup: admin-marked deleted video"
  | .bannedUsers => "Automated cleanup: banned user video"
  | .lowEngagement => "Automated cleanup: low engagement video"
  | .stuckUploads => "Automated cleanup: stuck upload (" ++ status ++ ")"

/-! ## The retention executor

Engine-level events: every adapter-method invocation and every
`markVideoAsCleanedUp` write is recorded in a trace.  The embedded loops
never throw: the adapters report failure by returning `false`, exactly as
`unpinHash`, `deleteObject` and `deleteObjectsWithPrefix` do in the source
(each wraps its network calls in try/catch and returns a boolean or a
count). -/

/-- An engine-level event: an adapter call or a persistent-state write. -/
inductive EngineOp where
  | unpinCall (hash : String)
  | deleteObjectCall (key : String)
  | deleteUnderPfxCall (pfx : String)
  | markCleanedWrite (id : String)
deriving DecidableEq, Repr

/-- Running state of one cleanup execution (counters of
`cleanupCommand`'s `results` object, plus the backend, the store and the
event trace). -/
structure RunState where
  backend : Backend
  store : List Video
  ops : List EngineOp
  errors : List String
  processed : Nat
  ipfsUnpinned : Nat
  s3Deleted : Nat
  dbUpdated : Nat
  totalStorageFreed : Nat

/-- The state at the start of a run. -/
def RunState.init (b : Backend) (store : List Video) : RunState :=
  ⟨b, store, [], [], 0, 0, 0, 0, 0⟩

/-- Finish one video in a cleanup loop: the unconditional
`markVideoAsCleanedUp` write and counter updates. -/
def finishVideo (ct : CleanupKind) (v : Video) (st : StorageType)
    (s : RunState) : RunState :=
  { s with
    store := markVideoAsCleanedUp s.store v.id (cleanupReasonFor ct v.status) st v.status,
    ops := s.ops ++ [EngineOp.markCleanedWrite v.id],
    dbUpdated := s.dbUpdated + 1,
    processed := s.processed + 1,
    totalStorageFreed := s.totalStorageFreed + v.size }

/-- One file deletion inside the S3 branch of `cleanup.ts`'s per-video
loop: `deleteObject` is invoked directly for each derived file. -/
def cleanupFileStep (acc : RunState) (k : String) : RunState :=
  let step := deleteObject acc.backend k
  { acc with
    backend := step.backend,
    ops := acc.ops ++ [EngineOp.deleteObjectCall k],
    s3Deleted := if step.ok then acc.s3Deleted + 1 else acc.s3Deleted }

/-- One prefix deletion inside the S3 branch of `cleanup.ts`'s per-video
loop (no run-scoped dedup set: invoked for every derived prefix). -/
def cleanupPfxStep (acc : RunState) (p : String) : RunState :=
  let r := deleteObjectsWithPfx acc.backend p
  { acc with
    backend := r.2,
    ops := acc.ops ++ [EngineOp.deleteUnderPfxCall p],
    s3Deleted := acc.s3Deleted + r.1.deleted }

/-- The per-video body of `cleanupCommand` in `src/src/commands/cleanup.ts`
(lines 185-259): unpin on `ipfs` classification (a failure is recorded as
an error but processing falls through), per-file and per-prefix deletion on
`s3` classification, and then — regardless of any backend failure —
`markVideoAsCleanedUp`. -/
def cleanupProcessVideo (ct : CleanupKind) (s : RunState) (v : Video) :
    RunState :=
  let st := getVideoStorageType v
  let s1 :=
    match st with
    | .ipfs =>
      match extractHashFromFilename (v.filename.getD "") with
      | some h =>
        let step := unpinHash s.backend h
        let s2 := { s with backend := step.backend, ops := s.ops ++ [EngineOp.unpinCall h] }
        if step.ok then { s2 with ipfsUnpinned := s2.ipfsUnpinned + 1 }
        else
          { s2 with errors := s2.errors
              ++ ["Failed to unpin IPFS " ++ h ++ " for video " ++ v.id] }
      | none => s
    | .s3 =>
      let paths := getS3Paths v
      (paths.prefixes.foldl cleanupPfxStep (paths.files.foldl cleanupFileStep s))
    | .unknown => s
  finishVideo ct v st s1

/-- The execution loop of `cleanup.ts`'s `cleanupCommand` (batching only
inserts pacing delays between batches; the per-video order is the list
order). -/
def cleanupRun (ct : CleanupKind) (b : Backend) (store : List Video)
    (videos : List Video) : RunState :=
  videos.foldl (cleanupProcessVideo ct) (RunState.init b store)

/-- One key inside `S3Service.batchDelete` as used by
`processVideoCleanup`: existence is checked first, and `deleteObject` is
invoked only for existing keys; only successes count. -/
def batchDeleteStep (acc : RunState) (k : String) : RunState :=
  if objectExists acc.backend k then
    let step := deleteObject acc.backend k
    { acc with
      backend := step.backend,
      ops := acc.ops ++ [EngineOp.deleteObjectCall k],
      s3Deleted := if step.ok then acc.s3Deleted + 1 else acc.s3Deleted }
  else acc

/-- The per-video body of `processVideoCleanup` (the
`cleanupCommandInternal` variant) together with its caller's accounting: an
unpin that reports failure is converted into a thrown error, which the
caller catches — recording the error and skipping the `markVideoAsCleanedUp`
write; every other path (including S3 deletions that report failure) falls
through to the write. -/
def p11ProcessVideo (ct : CleanupKind) (s : RunState) (v : Video) :
    RunState :=
  let st := getVideoStorageType v
  match st with
  | .ipfs =>
    match extractHashFromFilename (v.filename.getD "") with
    | some h =>
      let step := unpinHash s.backend h
      let s1 := { s with backend := step.backend, ops := s.ops ++ [EngineOp.unpinCall h] }
      if step.ok then
        finishVideo ct v st { s1 with ipfsUnpinned := s1.ipfsUnpinned + 1 }
      else
        { s1 with errors := s1.errors
            ++ ["Error processing " ++ v.id ++ ": Failed to unpin IPFS "
                ++ h ++ " for video " ++ v.id] }
    | none => finishVideo ct v st s
  | .s3 =>
    let paths := getS3Paths v
    finishVideo ct v st
      (paths.prefixes.foldl cleanupPfxStep (paths.files.foldl batchDeleteStep s))
  | .unknown => finishVideo ct v st s

/-- The admin-deleted selection of `cleanupCommandInternal`: criteria
`{status: ['deleted'], excludeCleaned: true}` handed to
`getVideosByCriteria` (which never reads `excludeCleaned`). -/
def adminDeletedCriteria : Criteria :=
  { status := ["deleted"], excludeCleaned := true }

/-- The admin-deleted execution path of `cleanupCommandInternal`: select by
criteria, then run `processVideoCleanup` over the candidates. -/
def adminDeletedCleanupRun (banned : List String) (now : Int) (b : Backend)
    (store : List Video) (limit : Nat) : RunState :=
  let videos := getVideosByCriteria banned now store adminDeletedCriteria limit
  videos.foldl (p11ProcessVideo .adminDeleted) (RunState.init b store)

/-! ## The nuke-account executor (`nuke-account.ts` per-video loop) -/

/-- Running state of a nuke-account execution, including the three
run-scoped dedup sets. -/
structure NukeState where
  backend : Backend
  store : List Video
  ops : List EngineOp
  processedS3Files : List String
  processedS3Pfxs : List String
  processedIpfsHashes : List String
  s3ObjectsDeleted : Nat
  ipfsHashesUnpinned : Nat
  dbUpdated : Nat
  processed : Nat
  skippedDuplicates : Nat

/-- The state at the start of a nuke-account run. -/
def NukeState.init (b : Backend) (store : List Video) : NukeState :=
  ⟨b, store, [], [], [], [], 0, 0, 0, 0, 0⟩

/-- One derived file in the nuke loop: skipped when empty or already
processed this run, otherwise added to the dedup set and deleted. -/
def nukeFileStep (acc : NukeState) (k : String) : NukeState :=
  if k == "" || acc.processedS3Files.contains k then
    if acc.processedS3Files.contains k then
      { acc with skippedDuplicates := acc.skippedDuplicates + 1 }
    else acc
  else
    let acc1 := { acc with processedS3Files := acc.processedS3Files ++ [k] }
    let step := deleteObject acc1.backend k
    { acc1 with
      backend := step.backend,
      ops := acc1.ops ++ [EngineOp.deleteObjectCall k],
      s3ObjectsDeleted :=
        if step.ok then acc1.s3ObjectsDeleted + 1 else acc1.s3ObjectsDeleted }

/-- One derived prefix in the nuke loop: skipped when empty or already in
the run-scoped `processedS3Prefixes` set, otherwise added and deleted. -/
def nukePfxStep (acc : NukeState) (p : String) : NukeState :=
  if p == "" || acc.processedS3Pfxs.contains p then
    if acc.processedS3Pfxs.contains p then
      { acc with skippedDuplicates := acc.skippedDuplicates + 1 }
    else acc
  else
    let acc1 := { acc with processedS3Pfxs := acc.processedS3Pfxs ++ [p] }
    let r := deleteObjectsWithPfx acc1.backend p
    { acc1 with
      backend := r.2,
      ops := acc1.ops ++ [EngineOp.deleteUnderPfxCall p],
      s3ObjectsDeleted := acc1.s3ObjectsDeleted + r.1.deleted }

/-- One collected IPFS hash in the nuke loop, with run-scoped dedup. -/
def nukeHashStep (acc : NukeState) (h : String) : NukeState :=
  if acc.processedIpfsHashes.contains h then
    { acc with skippedDuplicates := acc.skippedDuplicates + 1 }
  else
    let acc1 := { acc with processedIpfsHashes := acc.processedIpfsHashes ++ [h] }
    let step := unpinHash acc1.backend h
    { acc1 with
      backend := step.backend,
      ops := acc1.ops ++ [EngineOp.unpinCall h],
      ipfsHashesUnpinned :=
        if step.ok then acc1.ipfsHashesUnpinned + 1 else acc1.ipfsHashesUnpinned }

/-- The per-video body of `nukeAccountCommand`'s execution loop: note that
the S3 file and prefix deletions are driven by `getS3Paths` alone — they are
NOT guarded by the record's storage classification — and that
`markVideoAsCleanedUp` is written regardless of backend failures (the
embedded operations never throw). -/
def nukeProcessVideo (user : String) (s : NukeState) (v : Video) : NukeState :=
  let st := getVideoStorageType v
  let paths := getS3Paths v
  let sA := paths.files.foldl nukeFileStep s
  let sB := paths.prefixes.foldl nukePfxStep sA
  let sC := (collectIpfsHashes v).foldl nukeHashStep sB
  { sC with
    store := markVideoAsCleanedUp sC.store v.id ("nuke-account:" ++ user) st v.status,
    ops := sC.ops ++ [EngineOp.markCleanedWrite v.id],
    dbUpdated := sC.dbUpdated + 1,
    processed := sC.processed + 1 }

/-- The execution loop of `nukeAccountCommand`. -/
def nukeRun (user : String) (b : Backend) (store : List Video)
    (videos : List Video) : NukeState :=
  videos.foldl (nukeProcessVideo user) (NukeState.init b store)

/-! ## Command level: option handling, dry-run branches -/

/-- The `safety` section of the configuration. -/
structure SafetyConfig where
  requireConfirmation : Bool := true
  maxBatchSize : Nat := 50

/-- The CLI options of the cleanup command that affect selection and
control flow.  `noConfirm` is true when `--no-confirm` was passed
(`options.confirm === false`). -/
structure CleanupOpts where
  bannedUsers : Bool := false
  age : Option Int := none
  maxViews : Option Int := none
  status : Option String := none
  stuckDays : Option Int := none
  storageTypeOpt : Option StorageType := none
  dryRun : Bool := false
  noConfirm : Bool := false
  batchSize : Option Nat := none

/-- Which cleanup mode `cleanupCommand` selects from its options. -/
def cleanupKindOf (opts : CleanupOpts) : CleanupKind :=
  if opts.bannedUsers then .bannedUsers
  else if opts.status == some "deleted" then .adminDeleted
  else if opts.maxViews.isSome then .lowEngagement
  else .stuckUploads

/-- The candidate selection of `cleanup.ts`'s `cleanupCommand`: every mode
goes through `getVideosForCleanup` (limit defaults to 100, age cutoff to
365 days, view threshold to 10). -/
def cleanupSelectVideos (banned : List String) (now : Int)
    (store : List Video) (opts : CleanupOpts) : List Video :=
  match cleanupKindOf opts with
  | .bannedUsers =>
    getVideosForCleanup banned now store .bannedUsers (opts.batchSize.getD 100) 365 10
  | .adminDeleted =>
    getVideosForCleanup banned now store .adminDeleted (opts.batchSize.getD 100) 365 10
  | .lowEngagement =>
    getVideosForCleanup banned now store .lowEngagement (opts.batchSize.getD 100)
      365 (opts.maxViews.getD 10)
  | .stuckUploads =>
    getVideosForCleanup banned now store .stuckUploads (opts.batchSize.getD 100)
      (opts.age.getD (opts.stuckDays.getD 365)) 10

/-- The dry-run analysis of `cleanupCommand`: per-video IPFS hashes, S3
keys (files and prefixes) and attributed bytes, over the filtered
candidate list. -/
structure DryRunReport where
  totalVideos : Nat
  ipfsHashes : List String
  s3Keys : List String
  totalSize : Nat
deriving DecidableEq, Repr

/-- Accumulate one video into the dry-run analysis. -/
def analyzeVideo (r : DryRunReport) (v : Video) : DryRunReport :=
  let r1 :=
    match getVideoStorageType v with
    | .ipfs =>
      match extractHashFromFilename (v.filename.getD "") with
      | some h => { r with ipfsHashes := r.ipfsHashes ++ [h] }
      | none => r
    | .s3 =>
      let p := getS3Paths v
      if p.files.length + p.prefixes.length > 0 then
        { r with s3Keys := r.s3Keys ++ p.files ++ p.prefixes }
      else r
    | .unknown => r
  { r1 with totalSize := r1.totalSize + v.size }

/-- The whole dry-run analysis. -/
def analyzeVideos (videos : List Video) : DryRunReport :=
  videos.foldl analyzeVideo ⟨videos.length, [], [], 0⟩

/-- What a command invocation leaves behind: backend state, the store, the
trace of engine events, and the dry-run report if one was produced. -/
structure CommandOutcome where
  backend : Backend
  store : List Video
  ops : List EngineOp
  report : Option DryRunReport

/-- Control flow of `cleanup.ts`'s `cleanupCommand`: select, filter by
storage type, dry-run early return (no adapter call, no store write),
confirmation gate (`confirmCleanup` always returns false in the source, so
a run with `requireConfirmation` and without `--no-confirm` cancels), then
the execution loop. -/
def cleanupCommandRun (cfg : SafetyConfig) (banned : List String) (now : Int)
    (b : Backend) (store : List Video) (opts : CleanupOpts) : CommandOutcome :=
  let videos := cleanupSelectVideos banned now store opts
  let filtered :=
    match opts.storageTypeOpt with
    | some st => videos.filter fun v => getVideoStorageType v == st
    | none => videos
  if videos.isEmpty then ⟨b, store, [], none⟩
  else if filtered.isEmpty then ⟨b, store, [], none⟩
  else if opts.dryRun then ⟨b, store, [], some (analyzeVideos filtered)⟩
  else if cfg.requireConfirmation && !opts.noConfirm then ⟨b, store, [], none⟩
  else
    let r := cleanupRun (cleanupKindOf opts) b store filtered
    ⟨r.backend, r.store, r.ops, none⟩

/-- The CLI options of the nuke-account command. `limit = 0` means no
limit, as in `getVideosByOwner`. -/
structure NukeOpts where
  username : String := ""
  dryRun : Bool := false
  noConfirm : Bool := false
  includeCleaned : Bool := false
  limit : Nat := 0
  statusFilter : List String := []

/-- Control flow of `nukeAccountCommand`: trimmed-username guard, selection
by owner, dry-run early return, confirmation gate, then the execution
loop. -/
def nukeCommandRun (cfg : SafetyConfig) (b : Backend) (store : List Video)
    (opts : NukeOpts) : CommandOutcome :=
  let user := jsTrim opts.username
  if user == "" then ⟨b, store, [], none⟩
  else
    let videos := getVideosByOwner store user opts.includeCleaned opts.limit
      opts.statusFilter
    if videos.isEmpty then ⟨b, store, [], none⟩
    else if opts.dryRun then ⟨b, store, [], none⟩
    else if cfg.requireConfirmation && !opts.noConfirm then ⟨b, store, [], none⟩
    else
      let r := nukeRun user b store videos
      ⟨r.backend, r.store, r.ops, none⟩

/-! ## Helper lemmas -/

theorem mem_insertLe {le : α → α → Bool} {a x : α} {l : List α} :
    x ∈ insertLe le a l ↔ x = a ∨ x ∈ l := by
  induction l with
  | nil => simp [insertLe]
  | cons b l ih =>
    by_cases h : le a b = true
    · simp [insertLe, h]
    · simp only [insertLe, if_neg h, List.mem_cons, ih]
      tauto

theorem mem_sortLe {le : α → α → Bool} {x : α} {l : List α} :
    x ∈ sortLe le l ↔ x ∈ l := by
  induction l with
  | nil => simp [sortLe]
  | cons a l ih => simp [sortLe, mem_insertLe, ih]

theorem pairwise_insertLe {le : α → α → Bool}
    (htrans : ∀ a b c, le a b = true → le b c = true → le a c = true)
    (htotal : ∀ a b, le a b = true ∨ le b a = true)
    {a : α} {l : List α} (hl : l.Pairwise fun u v => le u v = true) :
    (insertLe le a l).Pairwise fun u v => le u v = true := by
  induction l with
  | nil => simp [insertLe]
  | cons b l ih =>
    rcases List.pairwise_cons.mp hl with ⟨hb, hl'⟩
    by_cases h : le a b = true
    · rw [insertLe, if_pos h]
      refine List.pairwise_cons.mpr ⟨?_, hl⟩
      intro x hx
      rcases List.mem_cons.mp hx with rfl | hx
      · exact h
      · exact htrans a b x h (hb x hx)
    · rw [insertLe, if_neg h]
      refine List.pairwise_cons.mpr ⟨?_, ih hl'⟩
      intro x hx
      rcases mem_insertLe.mp hx with rfl | hx
      · rcases htotal x b with h' | h'
        · exact absurd h' h
        · exact h'
      · exact hb x hx

theorem pairwise_sortLe {le : α → α → Bool}
    (htrans : ∀ a b c, le a b = true → le b c = true → le a c = true)
    (htotal : ∀ a b, le a b = true ∨ le b a = true) (l : List α) :
    (sortLe le l).Pairwise fun u v => le u v = true := by
  induction l with
  | nil => simp [sortLe]
  | cons a l ih => exact pairwise_insertLe htrans htotal ih

theorem createdAsc_trans (a b c : Video) :
    createdAsc a b = true → createdAsc b c = true → createdAsc a c = true := by
  simp only [createdAsc, decide_eq_true_eq]
  omega

theorem createdAsc_total (a b : Video) :
    createdAsc a b = true ∨ createdAsc b a = true := by
  simp only [createdAsc, decide_eq_true_eq]
  omega

theorem createdDesc_trans (a b c : Video) :
    createdDesc a b = true → createdDesc b c = true → createdDesc a c = true := by
  simp only [createdDesc, decide_eq_true_eq]
  omega

theorem createdDesc_total (a b : Video) :
    createdDesc a b = true ∨ createdDesc b a = true := by
  simp only [createdDesc, decide_eq_true_eq]
  omega

theorem mem_mongoLimit {n : Nat} {l : List α} {x : α} (h : x ∈ mongoLimit n l) :
    x ∈ l := by
  unfold mongoLimit at h
  split at h
  · exact h
  · exact List.mem_of_mem_take h

theorem pairwise_mongoLimit {n : Nat} {l : List α} {R : α → α → Prop}
    (h : l.Pairwise R) : (mongoLimit n l).Pairwise R := by
  unfold mongoLimit
  split
  · exact h
  · exact List.Pairwise.sublist (List.take_sublist n l) h

theorem length_mongoLimit_le {n : Nat} (hn : n ≠ 0) (l : List α) :
    (mongoLimit n l).length ≤ n := by
  unfold mongoLimit
  rw [if_neg hn]
  exact List.length_take_le n l

theorem mem_dedupFirstAux {seen l : List String} {x : String} :
    x ∈ dedupFirstAux seen l ↔ x ∈ l ∧ x ∉ seen := by
  induction l generalizing seen with
  | nil => simp [dedupFirstAux]
  | cons a l ih =>
    by_cases h : a ∈ seen
    · rw [dedupFirstAux, if_pos h, ih]
      constructor
      · rintro ⟨hx, hs⟩
        exact ⟨List.mem_cons_of_mem a hx, hs⟩
      · rintro ⟨hx, hs⟩
        rcases List.mem_cons.mp hx with rfl | hx
        · exact absurd h hs
        · exact ⟨hx, hs⟩
    · rw [dedupFirstAux, if_neg h]
      simp only [List.mem_cons, ih, not_or]
      by_cases hxa : x = a
      · subst hxa
        simp [h]
      · simp [hxa]

theorem mem_dedupFirst {l : List String} {x : String} :
    x ∈ dedupFirst l ↔ x ∈ l := by
  rw [dedupFirst, mem_dedupFirstAux]
  simp

theorem nodup_dedupFirstAux (seen l : List String) :
    (dedupFirstAux seen l).Nodup := by
  induction l generalizing seen with
  | nil => simp [dedupFirstAux]
  | cons a l ih =>
    by_cases h : a ∈ seen
    · rw [dedupFirstAux, if_pos h]
      exact ih seen
    · rw [dedupFirstAux, if_neg h]
      refine List.nodup_cons.mpr ⟨?_, ih (a :: seen)⟩
      intro hmem
      exact (mem_dedupFirstAux.mp hmem).2 (List.mem_cons_self a seen)

theorem nodup_dedupFirst (l : List String) : (dedupFirst l).Nodup :=
  nodup_dedupFirstAux [] l

theorem jsTrim_ne_empty_of_head {c : Char} {t : List Char}
    (hc : c.isWhitespace = false) : jsTrim ⟨c :: t⟩ ≠ "" := by
  intro h
  have hdata : (jsTrim ⟨c :: t⟩).data = [] := by rw [h]
  rw [jsTrim] at hdata
  simp only [List.dropWhile_cons, hc, Bool.false_eq_true, if_false] at hdata
  rw [List.reverse_eq_nil_iff] at hdata
  have := List.dropWhile_eq_nil_iff.mp hdata c
    (List.mem_reverse.mpr (List.mem_cons_self c t))
  rw [hc] at this
  exact Bool.false_ne_true this

/-! ## C7 — idempotent adapter deletion -/

/-- C7 (confirmed): `unpinHash` first checks `isPinned` and returns success
without sending `pin/rm` when the hash is not pinned, and `deleteObject`
first checks `objectExists` and returns success without sending a delete
when the object is missing; in neither case is an absent target an
error. -/
theorem c7_adapter_deletion_idempotent (b : Backend) (h k : String)
    (hp : isPinned b h = false) (hk : objectExists b k = false) :
    unpinHash b h = ⟨true, b, []⟩ ∧ deleteObject b k = ⟨true, b, []⟩ := by
  constructor
  · rw [unpinHash, if_neg (by simp [hp])]
  · rw [deleteObject, if_neg (by simp [hk])]

/-- A backend holding one pinned hash and one object, all requests
succeeding (used by concrete witnesses). -/
def witnessBackend : Backend :=
  ⟨["QmYwAPJzv5CZsnAzt8auVZRnDWeHXgYBgFCR8FbLVR2AbQ"], ["kept/video.mp4"],
   fun _ => true, fun _ => true⟩

/-- Witness for C7 at a hash and key that are absent from the backend. -/
theorem c7_adapter_deletion_idempotent_witness :
    isPinned witnessBackend "QmOther" = false ∧
    objectExists witnessBackend "missing.mp4" = false ∧
    (unpinHash witnessBackend "QmOther" = ⟨true, witnessBackend, []⟩ ∧
     deleteObject witnessBackend "missing.mp4" = ⟨true, witnessBackend, []⟩) :=
  ⟨by decide, by decide,
   c7_adapter_deletion_idempotent witnessBackend "QmOther" "missing.mp4"
     (by decide) (by decide)⟩

/-! ## C5 — prefix-deletion contract (spec-modelled) -/

/-- C5 (confirmed, spec-modelled): `deleteObjectsWithPrefix` — absent from
`s3.ts`, modelled from the spec as paginated listing plus batched deletion —
returns `{deleted := 0, errors := 0}` and leaves the backend unchanged when
no object lies under the prefix, rather than failing. -/
theorem chunksOfSucc_nil (n : Nat) : chunksOfSucc n ([] : List α) = [] := rfl

theorem c5_deleteByPfx_empty_ok (b : Backend) (pfx : String)
    (hempty : b.objects.filter (fun k => strStartsWith k pfx) = []) :
    deleteObjectsWithPfx b pfx = (⟨0, 0⟩, b) := by
  rw [deleteObjectsWithPfx]
  simp only [hempty, chunksOfSucc_nil, List.foldl_nil]

/-- Witness for C5: no object of the witness backend lies under
`videos/`. -/
theorem c5_deleteByPfx_empty_ok_witness :
    witnessBackend.objects.filter (fun k => strStartsWith k "videos/") = [] ∧
    deleteObjectsWithPfx witnessBackend "videos/" = (⟨0, 0⟩, witnessBackend) :=
  ⟨by decide, c5_deleteByPfx_empty_ok witnessBackend "videos/" (by decide)⟩

/-! ## C6 — preview performs no mutation -/

/-- C6 (confirmed): a dry-run invocation of either command records no
adapter call and no persistent-state write, and leaves the store and the
backend exactly as they were. -/
theorem c6_preview_no_mutation (cfg : SafetyConfig) (banned : List String)
    (now : Int) (b : Backend) (store : List Video) (opts : CleanupOpts)
    (nopts : NukeOpts) (hc : opts.dryRun = true) (hn : nopts.dryRun = true) :
    ((cleanupCommandRun cfg banned now b store opts).ops = [] ∧
      (cleanupCommandRun cfg banned now b store opts).store = store ∧
      (cleanupCommandRun cfg banned now b store opts).backend = b) ∧
    ((nukeCommandRun cfg b store nopts).ops = [] ∧
      (nukeCommandRun cfg b store nopts).store = store ∧
      (nukeCommandRun cfg b store nopts).backend = b) := by
  constructor
  · simp only [cleanupCommandRun, hc, if_true]
    split
    · exact ⟨rfl, rfl, rfl⟩
    · split
      · exact ⟨rfl, rfl, rfl⟩
      · exact ⟨rfl, rfl, rfl⟩
  · simp only [nukeCommandRun, hn, if_true]
    split
    · exact ⟨rfl, rfl, rfl⟩
    · split
      · exact ⟨rfl, rfl, rfl⟩
      · exact ⟨rfl, rfl, rfl⟩

/-- A store with one stuck upload, so that the dry-run branches of the
witness are actually reached with a non-empty candidate list. -/
def c6Store : List Video :=
  [{ id := "w0", owner := "alice", status := "uploaded", created := 0,
     filename := some "w0/video.mp4" }]

/-- Witness for C6: concrete dry-run invocations of both commands. -/
theorem c6_preview_no_mutation_witness :
    (({ dryRun := true } : CleanupOpts).dryRun = true ∧
     ({ username := "alice", dryRun := true } : NukeOpts).dryRun = true) ∧
    (((cleanupCommandRun {} [] 1000 witnessBackend c6Store { dryRun := true }).ops = [] ∧
      (cleanupCommandRun {} [] 1000 witnessBackend c6Store { dryRun := true }).store = c6Store ∧
      (cleanupCommandRun {} [] 1000 witnessBackend c6Store { dryRun := true }).backend = witnessBackend) ∧
     ((nukeCommandRun {} witnessBackend c6Store { username := "alice", dryRun := true }).ops = [] ∧
      (nukeCommandRun {} witnessBackend c6Store { username := "alice", dryRun := true }).store = c6Store ∧
      (nukeCommandRun {} witnessBackend c6Store { username := "alice", dryRun := true }).backend = witnessBackend)) :=
  ⟨⟨rfl, rfl⟩,
   c6_preview_no_mutation {} [] 1000 witnessBackend c6Store
     { dryRun := true } { username := "alice", dryRun := true } rfl rfl⟩

/-! ## C1 — idempotence of execution -/

/-- Backend for the C1 scenario: the two derived S3 objects exist and every
request succeeds. -/
def c1Backend : Backend :=
  ⟨[], ["abc/1080p.m3u8", "video.mp4"], fun _ => true, fun _ => true⟩

/-- An admin-deleted S3 video: `status = 'deleted'`, not yet cleaned. -/
def c1Video : Video :=
  { id := "v1", status := "deleted", created := 5,
    filename := some "video.mp4", permlink := some "abc" }

/-- The first admin-deleted cleanup run of the C1 scenario. -/
def c1FirstRun : RunState := adminDeletedCleanupRun [] 1000 c1Backend [c1Video] 100

/-- The immediately following second run over the state the first run left
behind. -/
def c1SecondRun : RunState :=
  adminDeletedCleanupRun [] 1000 c1FirstRun.backend c1FirstRun.store 100

/-- C1 (code bug): the first admin-deleted run marks the record cleaned,
yet — because `getVideosByCriteria` never reads the `excludeCleaned` flag
that `cleanupCommandInternal` passes (with the comment "Don't process
videos we've already cleaned") — the second run selects the already-cleaned
record again, invokes prefix deletion on the backend again, and writes
`markVideoAsCleanedUp` again: both counts the claim requires to be zero are
one. -/
theorem c1_admin_deleted_second_run_writes_again :
    c1FirstRun.store.all (·.cleanedUp) = true ∧
    (getVideosByCriteria [] 1000 c1FirstRun.store adminDeletedCriteria 100).length = 1 ∧
    c1SecondRun.ops.count (EngineOp.markCleanedWrite "v1") = 1 ∧
    c1SecondRun.ops.count (EngineOp.deleteUnderPfxCall "abc/1080p/") = 1 := by
  decide

/-! ## C2 — atomicity on per-item failure -/

/-- Backend for the C2 counterexample: the object exists but every delete
request fails. -/
def c2Backend : Backend := ⟨[], ["gone.mp4"], fun _ => true, fun _ => false⟩

/-- An S3-classified stuck upload whose object-store delete will fail. -/
def c2Video : Video := { id := "v2", status := "failed", filename := some "gone.mp4" }

/-- C2 counterexample: in `cleanup.ts`'s per-video loop the object-store
delete reports failure (`deleteObject` returns false), yet the record's
cleanup metadata is still written, so the failed record is NOT selectable
by a subsequent run. -/
theorem c2_failed_delete_still_marked :
    (deleteObject c2Backend "gone.mp4").ok = false ∧
    (cleanupRun .stuckUploads c2Backend [c2Video] [c2Video]).ops.count
      (EngineOp.markCleanedWrite "v2") = 1 ∧
    (cleanupRun .stuckUploads c2Backend [c2Video] [c2Video]).store.all
      (·.cleanedUp) = true := by
  decide

/-- C2 (corrected): only a THROWN error skips the `markVideoAsCleanedUp`
write.  In `processVideoCleanup` an unpin that reports failure is converted
into a throw, so the record keeps its metadata unwritten and stays
selectable; but `cleanup.ts`'s own per-video loop writes the metadata for
every processed record regardless of any reported backend failure. -/
theorem c2_markCleaned_skipped_only_on_thrown_unpin
    (ct : CleanupKind) (s : RunState) (v : Video) (h : String)
    (hst : getVideoStorageType v = .ipfs)
    (hex : extractHashFromFilename (v.filename.getD "") = some h)
    (hfail : (unpinHash s.backend h).ok = false) :
    ((p11ProcessVideo ct s v).ops = s.ops ++ [EngineOp.unpinCall h] ∧
     (p11ProcessVideo ct s v).store = s.store) ∧
    (∀ (ct' : CleanupKind) (s' : RunState) (v' : Video),
      EngineOp.markCleanedWrite v'.id ∈ (cleanupProcessVideo ct' s' v').ops) := by
  constructor
  · rw [p11ProcessVideo]
    simp only [hst, hex, hfail, Bool.false_eq_true, if_false]
    refine ⟨?_, ?_⟩ <;> first | rfl | trivial
  · intro ct' s' v'
    rw [cleanupProcessVideo, finishVideo]
    simp

/-- Backend for the C2 amended witness: the hash is pinned but the `pin/rm`
request fails. -/
def c2AmendBackend : Backend :=
  ⟨["QmYwAPJzv5CZsnAzt8auVZRnDWeHXgYBgFCR8FbLVR2AbQ"], [],
   fun _ => false, fun _ => true⟩

/-- An IPFS-classified video whose unpin will fail. -/
def c2AmendVideo : Video :=
  { id := "v3", status := "failed",
    filename := some "ipfs://QmYwAPJzv5CZsnAzt8auVZRnDWeHXgYBgFCR8FbLVR2AbQ" }

/-- Witness for the C2 amended theorem at a concrete failing unpin. -/
theorem c2_markCleaned_skipped_only_on_thrown_unpin_witness :
    (getVideoStorageType c2AmendVideo = .ipfs ∧
     extractHashFromFilename (c2AmendVideo.filename.getD "") =
       some "QmYwAPJzv5CZsnAzt8auVZRnDWeHXgYBgFCR8FbLVR2AbQ" ∧
     (unpinHash (RunState.init c2AmendBackend [c2AmendVideo]).backend
       "QmYwAPJzv5CZsnAzt8auVZRnDWeHXgYBgFCR8FbLVR2AbQ").ok = false) ∧
    (((p11ProcessVideo .stuckUploads (RunState.init c2AmendBackend [c2AmendVideo])
        c2AmendVideo).ops =
      (RunState.init c2AmendBackend [c2AmendVideo]).ops ++
        [EngineOp.unpinCall "QmYwAPJzv5CZsnAzt8auVZRnDWeHXgYBgFCR8FbLVR2AbQ"] ∧
      (p11ProcessVideo .stuckUploads (RunState.init c2AmendBackend [c2AmendVideo])
        c2AmendVideo).store =
      (RunState.init c2AmendBackend [c2AmendVideo]).store) ∧
     (∀ (ct' : CleanupKind) (s' : RunState) (v' : Video),
       EngineOp.markCleanedWrite v'.id ∈ (cleanupProcessVideo ct' s' v').ops)) :=
  ⟨⟨by decide, by decide, by decide⟩,
   c2_markCleaned_skipped_only_on_thrown_unpin .stuckUploads
     (RunState.init c2AmendBackend [c2AmendVideo]) c2AmendVideo
     "QmYwAPJzv5CZsnAzt8auVZRnDWeHXgYBgFCR8FbLVR2AbQ"
     (by decide) (by decide) (by decide)⟩

/-! ## C3 — unknown-kind safety -/

/-- An empty all-succeeding backend used by several counterexamples. -/
def emptyBackend : Backend := ⟨[], [], fun _ => true, fun _ => true⟩

/-- A record whose filename is a bare 32-hex upload-session token: the
classifier returns `unknown`. -/
def c3Video : Video :=
  { id := "v4", owner := "alice", status := "published",
    filename := some "0123456789abcdef0123456789abcdef" }

/-- C3 counterexample: `nukeAccountCommand` invokes the object-store delete
adapter for a record the classifier marks `unknown` — its S3 deletions are
driven by `getS3Paths` alone, not guarded by the classification. -/
theorem c3_nuke_mutates_unknown_record :
    getVideoStorageType c3Video = .unknown ∧
    EngineOp.deleteObjectCall "0123456789abcdef0123456789abcdef" ∈
      (nukeRun "alice" emptyBackend [c3Video] [c3Video]).ops := by
  decide

/-- C3 (corrected): in both cleanup per-video loops a record classified
`unknown` triggers no adapter call at all (only the `markVideoAsCleanedUp`
write); the nuke-account loop is the exception recorded in the
counterexample. -/
theorem c3_cleanup_unknown_no_adapter_calls (ct : CleanupKind) (s : RunState)
    (v : Video) (hu : getVideoStorageType v = .unknown) :
    ((cleanupProcessVideo ct s v).ops = s.ops ++ [EngineOp.markCleanedWrite v.id] ∧
     (cleanupProcessVideo ct s v).backend = s.backend) ∧
    ((p11ProcessVideo ct s v).ops = s.ops ++ [EngineOp.markCleanedWrite v.id] ∧
     (p11ProcessVideo ct s v).backend = s.backend) := by
  constructor
  · rw [cleanupProcessVideo, finishVideo]
    simp only [hu]
    exact ⟨trivial, trivial⟩
  · rw [p11ProcessVideo]
    simp only [hu]
    rw [finishVideo]
    refine ⟨?_, ?_⟩ <;> rfl

/-- Witness for the C3 amended theorem at the unknown-classified record. -/
theorem c3_cleanup_unknown_no_adapter_calls_witness :
    getVideoStorageType c3Video = .unknown ∧
    (((cleanupProcessVideo .stuckUploads (RunState.init emptyBackend [c3Video])
        c3Video).ops =
      (RunState.init emptyBackend [c3Video]).ops ++ [EngineOp.markCleanedWrite "v4"] ∧
      (cleanupProcessVideo .stuckUploads (RunState.init emptyBackend [c3Video])
        c3Video).backend = (RunState.init emptyBackend [c3Video]).backend) ∧
     ((p11ProcessVideo .stuckUploads (RunState.init emptyBackend [c3Video])
        c3Video).ops =
      (RunState.init emptyBackend [c3Video]).ops ++ [EngineOp.markCleanedWrite "v4"] ∧
      (p11ProcessVideo .stuckUploads (RunState.init emptyBackend [c3Video])
        c3Video).backend = (RunState.init emptyBackend [c3Video]).backend)) :=
  ⟨by decide,
   c3_cleanup_unknown_no_adapter_calls .stuckUploads
     (RunState.init emptyBackend [c3Video]) c3Video (by decide)⟩

/-! ## C4 — run-scoped locator deduplication (counterexample part) -/

/-- Two videos sharing the permlink `abc`, hence identical derived
prefixes. -/
def c4VideoA : Video :=
  { id := "v5", status := "failed", filename := some "abc/video.mp4",
    permlink := some "abc" }

/-- Second video with the same permlink. -/
def c4VideoB : Video :=
  { id := "v6", status := "failed", filename := some "abc/other.mp4",
    permlink := some "abc" }

/-- C4 counterexample: `cleanup.ts`'s execution loop has no run-scoped
dedup set, so two records resolving to the identical prefix `abc/1080p/`
cause the prefix-deletion adapter call to be invoked twice in one run. -/
theorem c4_cleanup_duplicate_pfx_called_twice :
    (getS3Paths c4VideoA).prefixes = (getS3Paths c4VideoB).prefixes ∧
    (cleanupRun .stuckUploads emptyBackend [c4VideoA, c4VideoB]
      [c4VideoA, c4VideoB]).ops.count
      (EngineOp.deleteUnderPfxCall "abc/1080p/") = 2 := by
  decide

/-! ## C9 — classifier rule (counterexample part) -/

/-- C9 counterexample: a bare content-address hash (`Qm` + 44 base58
characters, matching both hash regexes in the repository) is classified
`unknown`, not ContentAddressed — the classifier keys on the `ipfs://`
locator format, not on the hash pattern. -/
theorem c9_bare_hash_classified_unknown :
    isQmHash "Qmaaaaaaaaaaaaaaaaaaaaaaaaaaaaaaaaaaaaaaaaaaaa" = true ∧
    isStrictIpfsHash "Qmaaaaaaaaaaaaaaaaaaaaaaaaaaaaaaaaaaaaaaaaaaaa" = true ∧
    getVideoStorageType
      { id := "v8",
        filename := some "Qmaaaaaaaaaaaaaaaaaaaaaaaaaaaaaaaaaaaaaaaaaaaa" } =
      .unknown := by
  decide

/-! ## C10 — speculative original-file keys (counterexample part) -/

/-- A record whose original filename ends in a slash: its last path segment
is empty. -/
def c10Video : Video := { id := "v7", originalFilename := some "videos/" }

/-- C10 counterexample: when the original locator's last path segment is
empty, the four speculative keys are not derived at all, so the claimed
`originals/<basename>` key is absent from the returned files. -/
theorem c10_trailing_slash_skips_speculative_keys :
    (getS3Paths c10Video).files = ["videos/"] ∧
    ("originals/" ++ lastSegment "videos/") ∉ (getS3Paths c10Video).files := by
  decide

/-! ## C8 — selection ordering and bound -/

/-- Oldest admin-deleted video of the C8 store. -/
def c8VideoOld : Video :=
  { id := "w1", status := "deleted", created := 1, filename := some "a.mp4" }

/-- Newest uncleaned admin-deleted video of the C8 store. -/
def c8VideoNew : Video :=
  { id := "w2", status := "deleted", created := 2, filename := some "b.mp4" }

/-- An already-cleaned admin-deleted video. -/
def c8VideoCleaned : Video :=
  { id := "w3", status := "deleted", created := 3, filename := some "c.mp4",
    cleanedUp := true }

/-- The three-record store of the C8 counterexample. -/
def c8Store : List Video := [c8VideoOld, c8VideoNew, c8VideoCleaned]

/-- C8 counterexample: `getVideosByCriteria` returns candidates
NEWEST-first (`sort({created: -1})`) and includes the already-cleaned
record even though the caller passed `excludeCleaned` — selection through
this path is neither oldest-first nor cleaned-excluding. -/
theorem c8_byCriteria_newest_first_and_cleaned_included :
    (getVideosByCriteria [] 1000 c8Store adminDeletedCriteria 100).map (·.id) =
      ["w3", "w2", "w1"] ∧
    c8VideoCleaned.cleanedUp = true ∧
    ¬ (getVideosByCriteria [] 1000 c8Store adminDeletedCriteria 100).Pairwise
        (fun u v => u.created ≤ v.created) := by
  decide

/-- Pairwise ascending `created` for the ascending sort. -/
theorem pairwise_created_asc_sortLe (l : List Video) :
    (sortLe createdAsc l).Pairwise fun u v => u.created ≤ v.created :=
  (pairwise_sortLe createdAsc_trans createdAsc_total l).imp
    fun h => by simpa [createdAsc] using h

/-- Pairwise descending `created` for the descending sort. -/
theorem pairwise_created_desc_sortLe (l : List Video) :
    (sortLe createdDesc l).Pairwise fun u v => v.created ≤ u.created :=
  (pairwise_sortLe createdDesc_trans createdDesc_total l).imp
    fun h => by simpa [createdDesc] using h

/-- The corrected selection contract: `getVideosForCleanup` is
oldest-first, bounded and cleaned-excluding; `getVideosByOwner` (without
the `includeCleaned` opt-in) likewise; `getVideosByCriteria` is
NEWEST-first and performs no cleaned-exclusion of its own. -/
def SelectionContract (banned : List String) (now : Int) (store : List Video)
    (kind : CleanupKind) (limit : Nat) (olderThanDays viewThreshold : Int)
    (owner : String) (statuses : List String) (c : Criteria) : Prop :=
  ((getVideosForCleanup banned now store kind limit olderThanDays
      viewThreshold).Pairwise (fun u v => u.created ≤ v.created) ∧
    (getVideosForCleanup banned now store kind limit olderThanDays
      viewThreshold).length ≤ limit ∧
    ∀ v ∈ getVideosForCleanup banned now store kind limit olderThanDays
      viewThreshold, v.cleanedUp = false) ∧
  ((getVideosByOwner store owner false limit statuses).Pairwise
      (fun u v => u.created ≤ v.created) ∧
    (getVideosByOwner store owner false limit statuses).length ≤ limit ∧
    ∀ v ∈ getVideosByOwner store owner false limit statuses,
      v.cleanedUp = false) ∧
  (getVideosByCriteria banned now store c limit).Pairwise
    (fun u v => v.created ≤ u.created)

/-- C8 (corrected): the selection contract that actually holds of the three
query functions. -/
theorem c8_selection_contract (banned : List String) (now : Int)
    (store : List Video) (kind : CleanupKind) (limit : Nat)
    (olderThanDays viewThreshold : Int) (owner : String)
    (statuses : List String) (c : Criteria) (hlim : limit ≠ 0) :
    SelectionContract banned now store kind limit olderThanDays viewThreshold
      owner statuses c := by
  refine ⟨⟨?_, ?_, ?_⟩, ⟨?_, ?_, ?_⟩, ?_⟩
  · exact pairwise_mongoLimit (pairwise_created_asc_sortLe _)
  · exact length_mongoLimit_le hlim _
  · intro v hv
    have hmem := mem_sortLe.mp (mem_mongoLimit hv)
    have hp := (List.mem_filter.mp hmem).2
    simp only [Bool.and_eq_true, Bool.not_eq_eq_eq_not, Bool.not_true] at hp
    exact hp.1.2
  · rw [getVideosByOwner, if_pos (Nat.pos_of_ne_zero hlim)]
    exact List.Pairwise.sublist (List.take_sublist _ _)
      (pairwise_created_asc_sortLe _)
  · rw [getVideosByOwner, if_pos (Nat.pos_of_ne_zero hlim)]
    exact List.length_take_le _ _
  · intro v hv
    rw [getVideosByOwner, if_pos (Nat.pos_of_ne_zero hlim)] at hv
    have hmem := mem_sortLe.mp (List.mem_of_mem_take hv)
    have hp := (List.mem_filter.mp hmem).2
    simp only [Bool.and_eq_true, Bool.or_eq_true, Bool.not_eq_eq_eq_not,
      Bool.not_true] at hp
    rcases hp.1.2 with hfalse | hclean
    · exact absurd hfalse (by simp)
    · exact hclean
  · rw [getVideosByCriteria]
    split
    · exact List.Pairwise.sublist (List.filter_sublist _)
        (pairwise_mongoLimit (pairwise_created_desc_sortLe _))
    · exact pairwise_mongoLimit (pairwise_created_desc_sortLe _)

/-- Witness for C8's corrected contract at a concrete store and limit. -/
theorem c8_selection_contract_witness :
    (2 : Nat) ≠ 0 ∧
    SelectionContract [] 1000 c8Store .adminDeleted 2 365 10 "alice" []
      adminDeletedCriteria :=
  ⟨by decide,
   c8_selection_contract [] 1000 c8Store .adminDeleted 2 365 10 "alice" []
     adminDeletedCriteria (by decide)⟩

/-- Unfolding of `isRealS3Filename` into its conjunction of conditions. -/
theorem isRealS3Filename_eq_true_iff (f : String) :
    isRealS3Filename f = true ↔
      f ≠ "" ∧ f ≠ "null" ∧ f ≠ "undefined" ∧
        strStartsWith f "ipfs://" = false ∧
        (hasFileExtension f = true ∨ strContainsChar f '/' = true) ∧
        isJustHash f = false := by
  rw [isRealS3Filename]
  by_cases h1 : f = "" <;> by_cases h2 : f = "null" <;>
    by_cases h3 : f = "undefined" <;>
      by_cases h4 : strStartsWith f "ipfs://" = true <;>
        simp [h1, h2, h3, h4, Bool.and_eq_true, Bool.or_eq_true,
          Bool.not_eq_true']

/-- C9 (corrected): the classifier — a pure function of the record —
returns ContentAddressed exactly when the locator is `ipfs://`-prefixed
(NOT when it matches a content-address hash pattern), and ObjectStore
exactly when the locator is present, is not the literal `null`/`undefined`,
is not `ipfs://`-prefixed, has a file extension or a path separator, and is
not a bare 32-character lowercase-hex token. -/
theorem c9_classifier_characterization (v : Video) :
    (getVideoStorageType v = .ipfs ↔
      ∃ f, v.filename = some f ∧ strStartsWith f "ipfs://" = true) ∧
    (getVideoStorageType v = .s3 ↔
      ∃ f, v.filename = some f ∧ f ≠ "" ∧ f ≠ "null" ∧ f ≠ "undefined" ∧
        strStartsWith f "ipfs://" = false ∧
        (hasFileExtension f = true ∨ strContainsChar f '/' = true) ∧
        isJustHash f = false) := by
  cases hf : v.filename with
  | none => simp [getVideoStorageType, hf]
  | some f =>
    simp only [getVideoStorageType, hf, Option.some.injEq, exists_eq_left']
    by_cases h1 : strStartsWith f "ipfs://" = true
    · constructor
      · simp [h1]
      · simp [h1]
    · rw [if_neg h1]
      by_cases h2 : (f != "" && isRealS3Filename f) = true
      · rw [if_pos h2]
        rcases Bool.and_eq_true .. |>.mp h2 with ⟨hne, hreal⟩
        have hc := isRealS3Filename_eq_true_iff f |>.mp hreal
        constructor
        · simp [h1]
        · simp only [true_iff, reduceCtorEq]
          tauto
      · rw [if_neg h2]
        constructor
        · simp [h1]
        · simp only [false_iff, reduceCtorEq]
          intro hcontra
          rcases hcontra with ⟨hne, hnull, hundef, hips, hext, hhash⟩
          apply h2
          rw [Bool.and_eq_true]
          refine ⟨by simpa using hne, ?_⟩
          rw [isRealS3Filename_eq_true_iff]
          exact ⟨hne, hnull, hundef, hips, hext, hhash⟩

/-! ## C10 — derived original-file locator set (amended part) -/

/-- A string whose data list starts with a character is non-empty. -/
theorem ne_empty_of_data_cons {s : String} {c : Char} {t : List Char}
    (h : s.data = c :: t) : s ≠ "" := by
  intro he
  rw [he] at h
  exact List.cons_ne_nil c t h.symm

/-- A string starting with a non-whitespace character has a non-empty
trim. -/
theorem jsTrim_ne_empty_of_data {s : String} {c : Char} {t : List Char}
    (h : s.data = c :: t) (hc : c.isWhitespace = false) : jsTrim s ≠ "" := by
  cases s with
  | mk d =>
    simp only at h
    subst h
    exact jsTrim_ne_empty_of_head hc

/-- The `getS3Paths` filter keeps any string starting with a non-whitespace
character. -/
theorem s3PathKeep_of_data {s : String} {c : Char} {t : List Char}
    (h : s.data = c :: t) (hc : c.isWhitespace = false) :
    s3PathKeep s = true := by
  rw [s3PathKeep, Bool.and_eq_true, bne_iff_ne, bne_iff_ne]
  exact ⟨ne_empty_of_data_cons h, jsTrim_ne_empty_of_data h hc⟩

/-- Any kept member of the original-source entries ends up in the returned
files list. -/
theorem mem_files_of_mem_originalEntries {v : Video} {x : String}
    (hx : x ∈ originalEntriesOf v) (hkeep : s3PathKeep x = true) :
    x ∈ (getS3Paths v).files := by
  rw [getS3Paths]
  exact mem_dedupFirst.mpr
    (List.mem_filter.mpr ⟨List.mem_append_right _ hx, hkeep⟩)

/-- The returned files and prefixes are duplicate-free. -/
theorem getS3Paths_nodup (v : Video) :
    (getS3Paths v).files.Nodup ∧ (getS3Paths v).prefixes.Nodup := by
  rw [getS3Paths]
  exact ⟨nodup_dedupFirst _, nodup_dedupFirst _⟩

/-- Every returned file or prefix is non-empty, with a non-empty trim. -/
theorem getS3Paths_kept (v : Video) :
    (∀ x ∈ (getS3Paths v).files, x ≠ "" ∧ jsTrim x ≠ "") ∧
    (∀ x ∈ (getS3Paths v).prefixes, x ≠ "" ∧ jsTrim x ≠ "") := by
  rw [getS3Paths]
  constructor <;>
    · intro x hx
      have hkeep := (List.mem_filter.mp (mem_dedupFirst.mp hx)).2
      rw [s3PathKeep, Bool.and_eq_true, bne_iff_ne, bne_iff_ne] at hkeep
      exact hkeep

/-- C10 (corrected): when the original locator is present, not
`ipfs://`-prefixed, has a NON-EMPTY last path segment, and has a non-empty
trim, the returned files include the original locator itself and the four
speculative `originals/ uploads/ raw/ source/` keys; and the returned files
and prefixes are always duplicate-free with no empty or whitespace-only
entries.  (With an empty last path segment the speculative keys are not
derived — the counterexample.) -/
theorem c10_speculative_keys (v : Video) (o : String)
    (ho : v.originalFilename = some o) (hne : o ≠ "")
    (hipfs : strStartsWith o "ipfs://" = false) (hb : lastSegment o ≠ "")
    (htrim : jsTrim o ≠ "") :
    (o ∈ (getS3Paths v).files ∧
     ("originals/" ++ lastSegment o) ∈ (getS3Paths v).files ∧
     ("uploads/" ++ lastSegment o) ∈ (getS3Paths v).files ∧
     ("raw/" ++ lastSegment o) ∈ (getS3Paths v).files ∧
     ("source/" ++ lastSegment o) ∈ (getS3Paths v).files) ∧
    ((getS3Paths v).files.Nodup ∧ (getS3Paths v).prefixes.Nodup) ∧
    ((∀ x ∈ (getS3Paths v).files, x ≠ "" ∧ jsTrim x ≠ "") ∧
     (∀ x ∈ (getS3Paths v).prefixes, x ≠ "" ∧ jsTrim x ≠ "")) := by
  have hcond1 : (o != "" && !strStartsWith o "ipfs://") = true := by
    rw [Bool.and_eq_true, bne_iff_ne, Bool.not_eq_true']
    exact ⟨hne, hipfs⟩
  have hcond2 : (lastSegment o != "") = true := bne_iff_ne .. |>.mpr hb
  have hentries : originalEntriesOf v =
      o :: ["originals/" ++ lastSegment o, "uploads/" ++ lastSegment o,
            "raw/" ++ lastSegment o, "source/" ++ lastSegment o] := by
    simp only [originalEntriesOf, ho, hcond1, hcond2, if_true]
  have hdataApp : ∀ (pre rest : String) (c : Char) (t : List Char),
      pre.data = c :: t → ((pre ++ rest)).data = c :: (t ++ rest.data) := by
    intro pre rest c t hpre
    rw [String.data_append, hpre, List.cons_append]
  refine ⟨⟨?_, ?_, ?_, ?_, ?_⟩, getS3Paths_nodup v, getS3Paths_kept v⟩
  · refine mem_files_of_mem_originalEntries (by rw [hentries]; exact List.mem_cons_self ..) ?_
    rw [s3PathKeep, Bool.and_eq_true, bne_iff_ne, bne_iff_ne]
    exact ⟨hne, htrim⟩
  · exact mem_files_of_mem_originalEntries (by rw [hentries]; simp)
      (s3PathKeep_of_data (hdataApp "originals/" _ 'o' _ rfl) (by decide))
  · exact mem_files_of_mem_originalEntries (by rw [hentries]; simp)
      (s3PathKeep_of_data (hdataApp "uploads/" _ 'u' _ rfl) (by decide))
  · exact mem_files_of_mem_originalEntries (by rw [hentries]; simp)
      (s3PathKeep_of_data (hdataApp "raw/" _ 'r' _ rfl) (by decide))
  · exact mem_files_of_mem_originalEntries (by rw [hentries]; simp)
      (s3PathKeep_of_data (hdataApp "source/" _ 's' _ rfl) (by decide))

/-- The record of the C10 witness: a two-segment original filename. -/
def c10WitnessVideo : Video :=
  { id := "v9", originalFilename := some "up/orig.mov" }

/-- Witness for the C10 amended theorem at a concrete original filename. -/
theorem c10_speculative_keys_witness :
    (c10WitnessVideo.originalFilename = some "up/orig.mov" ∧
     "up/orig.mov" ≠ "" ∧
     strStartsWith "up/orig.mov" "ipfs://" = false ∧
     lastSegment "up/orig.mov" ≠ "" ∧ jsTrim "up/orig.mov" ≠ "") ∧
    (("up/orig.mov" ∈ (getS3Paths c10WitnessVideo).files ∧
      ("originals/" ++ lastSegment "up/orig.mov") ∈ (getS3Paths c10WitnessVideo).files ∧
      ("uploads/" ++ lastSegment "up/orig.mov") ∈ (getS3Paths c10WitnessVideo).files ∧
      ("raw/" ++ lastSegment "up/orig.mov") ∈ (getS3Paths c10WitnessVideo).files ∧
      ("source/" ++ lastSegment "up/orig.mov") ∈ (getS3Paths c10WitnessVideo).files) ∧
     ((getS3Paths c10WitnessVideo).files.Nodup ∧
      (getS3Paths c10WitnessVideo).prefixes.Nodup) ∧
     ((∀ x ∈ (getS3Paths c10WitnessVideo).files, x ≠ "" ∧ jsTrim x ≠ "") ∧
      (∀ x ∈ (getS3Paths c10WitnessVideo).prefixes, x ≠ "" ∧ jsTrim x ≠ ""))) :=
  ⟨⟨rfl, by decide, by decide, by decide, by decide⟩,
   c10_speculative_keys c10WitnessVideo "up/orig.mov" rfl (by decide)
     (by decide) (by decide) (by decide)⟩

/-! ## C4 — run-scoped locator deduplication (amended part)

The nuke-account loop's `processedS3Prefixes` set makes each prefix's
deletion happen at most once per run.  The proof ties the trace to the
dedup set: at every point of the run, the prefixes sent to prefix deletion
(in trace order) are exactly the contents of the dedup set, which is
duplicate-free. -/

/-- The prefixes sent to prefix deletion, in trace order. -/
def pfxCallsOf (ops : List EngineOp) : List String :=
  ops.filterMap fun op =>
    match op with
    | EngineOp.deleteUnderPfxCall p => some p
    | _ => none

theorem pfxCallsOf_append (l₁ l₂ : List EngineOp) :
    pfxCallsOf (l₁ ++ l₂) = pfxCallsOf l₁ ++ pfxCallsOf l₂ :=
  List.filterMap_append l₁ l₂ _

theorem count_deleteUnderPfxCall (ops : List EngineOp) (p : String) :
    ops.count (EngineOp.deleteUnderPfxCall p) = (pfxCallsOf ops).count p := by
  induction ops with
  | nil => rfl
  | cons op l ih =>
    cases op <;>
      simp [pfxCallsOf, List.filterMap_cons, List.count_cons, ih]

/-- Trace/dedup-set invariant of the nuke loop. -/
def PfxInv (s : NukeState) : Prop :=
  pfxCallsOf s.ops = s.processedS3Pfxs ∧ s.processedS3Pfxs.Nodup

theorem pfxInv_nukeFileStep {acc : NukeState} (k : String) (h : PfxInv acc) :
    PfxInv (nukeFileStep acc k) := by
  rw [PfxInv] at h ⊢
  rw [nukeFileStep]
  split
  · split
    · exact h
    · exact h
  · refine ⟨?_, h.2⟩
    show pfxCallsOf (acc.ops ++ [EngineOp.deleteObjectCall k]) = acc.processedS3Pfxs
    rw [pfxCallsOf_append, h.1]
    simp [pfxCallsOf, List.filterMap_cons]

theorem pfxInv_nukeHashStep {acc : NukeState} (hh : String) (h : PfxInv acc) :
    PfxInv (nukeHashStep acc hh) := by
  rw [PfxInv] at h ⊢
  rw [nukeHashStep]
  split
  · exact h
  · refine ⟨?_, h.2⟩
    show pfxCallsOf (acc.ops ++ [EngineOp.unpinCall hh]) = acc.processedS3Pfxs
    rw [pfxCallsOf_append, h.1]
    simp [pfxCallsOf, List.filterMap_cons]

theorem pfxInv_nukePfxStep {acc : NukeState} (p : String) (h : PfxInv acc) :
    PfxInv (nukePfxStep acc p) := by
  rw [PfxInv] at h ⊢
  rw [nukePfxStep]
  split
  · split
    · exact h
    · exact h
  · rename_i hcond
    have hnotmem : p ∉ acc.processedS3Pfxs := by
      intro hm
      exact hcond (by simp [hm])
    constructor
    · show pfxCallsOf (acc.ops ++ [EngineOp.deleteUnderPfxCall p]) =
        acc.processedS3Pfxs ++ [p]
      rw [pfxCallsOf_append, h.1]
      simp [pfxCallsOf, List.filterMap_cons]
    · show (acc.processedS3Pfxs ++ [p]).Nodup
      rw [List.nodup_append]
      exact ⟨h.2, List.nodup_singleton p, by simpa using hnotmem⟩

theorem pfxInv_foldl {f : NukeState → α → NukeState}
    (hf : ∀ s x, PfxInv s → PfxInv (f s x)) :
    ∀ (l : List α) (s : NukeState), PfxInv s → PfxInv (l.foldl f s)
  | [], _, h => h
  | x :: l, s, h => pfxInv_foldl hf l (f s x) (hf s x h)

theorem pfxInv_nukeProcessVideo (u : String) (s : NukeState) (v : Video)
    (h : PfxInv s) : PfxInv (nukeProcessVideo u s v) := by
  have h1 := pfxInv_foldl (fun s k hs => pfxInv_nukeFileStep k hs)
    (getS3Paths v).files s h
  have h2 := pfxInv_foldl (fun s p hs => pfxInv_nukePfxStep p hs)
    (getS3Paths v).prefixes _ h1
  have h3 := pfxInv_foldl (fun s hh hs => pfxInv_nukeHashStep hh hs)
    (collectIpfsHashes v) _ h2
  rw [PfxInv] at h3 ⊢
  rw [nukeProcessVideo]
  refine ⟨?_, h3.2⟩
  show pfxCallsOf (_ ++ [EngineOp.markCleanedWrite v.id]) = _
  rw [pfxCallsOf_append, h3.1]
  simp [pfxCallsOf, List.filterMap_cons]

/-- The dedup set is untouched by the file steps. -/
theorem pfxSet_nukeFileStep (acc : NukeState) (k : String) :
    (nukeFileStep acc k).processedS3Pfxs = acc.processedS3Pfxs := by
  rw [nukeFileStep]
  split
  · split <;> rfl
  · rfl

/-- The dedup set is untouched by the hash steps. -/
theorem pfxSet_nukeHashStep (acc : NukeState) (hh : String) :
    (nukeHashStep acc hh).processedS3Pfxs = acc.processedS3Pfxs := by
  rw [nukeHashStep]
  split
  · rfl
  · rfl

/-- The dedup set only grows at the prefix steps. -/
theorem pfxSet_sub_nukePfxStep (acc : NukeState) (p : String) :
    acc.processedS3Pfxs ⊆ (nukePfxStep acc p).processedS3Pfxs := by
  rw [nukePfxStep]
  split
  · split
    · exact fun _ h => h
    · exact fun _ h => h
  · exact fun _ h => List.mem_append_left _ h

theorem pfxSet_foldl_file (l : List String) (s : NukeState) :
    (l.foldl nukeFileStep s).processedS3Pfxs = s.processedS3Pfxs := by
  induction l generalizing s with
  | nil => rfl
  | cons k l ih => rw [List.foldl_cons, ih, pfxSet_nukeFileStep]

theorem pfxSet_foldl_hash (l : List String) (s : NukeState) :
    (l.foldl nukeHashStep s).processedS3Pfxs = s.processedS3Pfxs := by
  induction l generalizing s with
  | nil => rfl
  | cons hh l ih => rw [List.foldl_cons, ih, pfxSet_nukeHashStep]

theorem pfxSet_sub_foldl {f : NukeState → α → NukeState}
    (hf : ∀ s x, s.processedS3Pfxs ⊆ (f s x).processedS3Pfxs) :
    ∀ (l : List α) (s : NukeState),
      s.processedS3Pfxs ⊆ (l.foldl f s).processedS3Pfxs
  | [], _ => fun _ h => h
  | x :: l, s => fun _ h => pfxSet_sub_foldl hf l (f s x) (hf s x h)

/-- After folding the prefix steps over a list containing a non-empty
prefix `p`, the dedup set contains `p`. -/
theorem pfx_mem_after_fold (p : String) (hp : p ≠ "") (l : List String) :
    ∀ s : NukeState, p ∈ l →
      p ∈ (l.foldl nukePfxStep s).processedS3Pfxs := by
  induction l with
  | nil => intro s h; cases h
  | cons q l ih =>
    intro s hmem
    rw [List.foldl_cons]
    rcases List.mem_cons.mp hmem with rfl | hmem'
    · refine pfxSet_sub_foldl (fun s x => pfxSet_sub_nukePfxStep s x) l
        (nukePfxStep s p) ?_
      rw [nukePfxStep]
      split
      · rename_i hcond
        have hmemset : p ∈ s.processedS3Pfxs := by
          rcases Bool.or_eq_true .. |>.mp hcond with h1 | h2
          · exact absurd (by simpa using h1) hp
          · simpa using h2
        split
        · exact hmemset
        · exact hmemset
      · exact List.mem_append_right _ (List.mem_singleton.mpr rfl)
    · exact ih (nukePfxStep s q) hmem'

/-- The dedup set only grows along a whole per-video step. -/
theorem pfxSet_sub_nukeProcessVideo (u : String) (s : NukeState) (v : Video) :
    s.processedS3Pfxs ⊆ (nukeProcessVideo u s v).processedS3Pfxs := by
  intro a ha
  rw [nukeProcessVideo]
  show a ∈ ((collectIpfsHashes v).foldl nukeHashStep _).processedS3Pfxs
  rw [pfxSet_foldl_hash]
  refine pfxSet_sub_foldl (fun s x => pfxSet_sub_nukePfxStep s x)
    (getS3Paths v).prefixes _ ?_
  rw [pfxSet_foldl_file]
  exact ha

/-- A non-empty prefix of a processed video ends up in the dedup set. -/
theorem pfx_mem_nukeProcessVideo (u : String) (s : NukeState) (v : Video)
    (p : String) (hp : p ≠ "") (hmem : p ∈ (getS3Paths v).prefixes) :
    p ∈ (nukeProcessVideo u s v).processedS3Pfxs := by
  rw [nukeProcessVideo]
  show p ∈ ((collectIpfsHashes v).foldl nukeHashStep _).processedS3Pfxs
  rw [pfxSet_foldl_hash]
  exact pfx_mem_after_fold p hp _ _ hmem

theorem pfx_mem_foldl_videos (u p : String) (hp : p ≠ "") :
    ∀ (videos : List Video) (s : NukeState) (v : Video), v ∈ videos →
      p ∈ (getS3Paths v).prefixes →
      p ∈ (videos.foldl (nukeProcessVideo u) s).processedS3Pfxs := by
  intro videos
  induction videos with
  | nil => intro s v hv; cases hv
  | cons w l ih =>
    intro s v hv hmem
    rw [List.foldl_cons]
    rcases List.mem_cons.mp hv with rfl | hv'
    · exact pfxSet_sub_foldl (fun s x => pfxSet_sub_nukeProcessVideo u s x) l
        (nukeProcessVideo u s v) (pfx_mem_nukeProcessVideo u s v p hp hmem)
    · exact ih (nukeProcessVideo u s w) v hv' hmem

/-- Trace events are never dropped by the nuke steps. -/
theorem opsMem_nukeSteps (acc : NukeState) (x : String) (o : EngineOp)
    (ho : o ∈ acc.ops) :
    o ∈ (nukeFileStep acc x).ops ∧ o ∈ (nukePfxStep acc x).ops ∧
      o ∈ (nukeHashStep acc x).ops := by
  refine ⟨?_, ?_, ?_⟩
  · rw [nukeFileStep]
    split
    · split <;> exact ho
    · exact List.mem_append_left _ ho
  · rw [nukePfxStep]
    split
    · split <;> exact ho
    · exact List.mem_append_left _ ho
  · rw [nukeHashStep]
    split
    · exact ho
    · exact List.mem_append_left _ ho

theorem opsMem_foldl {f : NukeState → α → NukeState}
    (hf : ∀ s x o, o ∈ s.ops → o ∈ (f s x).ops) :
    ∀ (l : List α) (s : NukeState) (o : EngineOp),
      o ∈ s.ops → o ∈ (l.foldl f s).ops
  | [], _, _, h => h
  | x :: l, s, o, h => opsMem_foldl hf l (f s x) o (hf s x o h)

/-- Trace events survive a whole per-video step, which also appends the
`markCleanedWrite` for its video. -/
theorem opsMem_nukeProcessVideo (u : String) (s : NukeState) (v : Video)
    (o : EngineOp) (ho : o ∈ s.ops) : o ∈ (nukeProcessVideo u s v).ops := by
  rw [nukeProcessVideo]
  refine List.mem_append_left _ ?_
  refine opsMem_foldl (fun s x o h => (opsMem_nukeSteps s x o h).2.2)
    (collectIpfsHashes v) _ o ?_
  refine opsMem_foldl (fun s x o h => (opsMem_nukeSteps s x o h).2.1)
    (getS3Paths v).prefixes _ o ?_
  exact opsMem_foldl (fun s x o h => (opsMem_nukeSteps s x o h).1)
    (getS3Paths v).files _ o ho

theorem markCleaned_mem_nukeProcessVideo (u : String) (s : NukeState)
    (v : Video) :
    EngineOp.markCleanedWrite v.id ∈ (nukeProcessVideo u s v).ops := by
  rw [nukeProcessVideo]
  exact List.mem_append_right _ (List.mem_singleton.mpr rfl)

theorem marks_mem_foldl_videos (u : String) :
    ∀ (videos : List Video) (s : NukeState) (v : Video), v ∈ videos →
      EngineOp.markCleanedWrite v.id ∈
        (videos.foldl (nukeProcessVideo u) s).ops := by
  intro videos
  induction videos with
  | nil => intro s v hv; cases hv
  | cons w l ih =>
    intro s v hv
    rw [List.foldl_cons]
    rcases List.mem_cons.mp hv with rfl | hv'
    · exact opsMem_foldl (fun s x o h => opsMem_nukeProcessVideo u s x o h) l
        (nukeProcessVideo u s v) _ (markCleaned_mem_nukeProcessVideo u s v)
    · exact ih (nukeProcessVideo u s w) v hv'

/-- C4 (corrected): in `nukeAccountCommand`'s execution loop the run-scoped
`processedS3Prefixes` set guarantees that the prefix-deletion adapter call
for any shared non-empty prefix is invoked exactly once per run, and every
record of the run is still marked cleaned; the claim fails for
`cleanup.ts`'s loop, which has no dedup set (see the counterexample). -/
theorem c4_nuke_pfx_dedup (u : String) (b : Backend) (store videos : List Video)
    (p : String) (v : Video) (hp : p ≠ "") (hv : v ∈ videos)
    (hmem : p ∈ (getS3Paths v).prefixes) :
    (nukeRun u b store videos).ops.count (EngineOp.deleteUnderPfxCall p) = 1 ∧
    ∀ w ∈ videos, EngineOp.markCleanedWrite w.id ∈ (nukeRun u b store videos).ops := by
  have hinv : PfxInv (nukeRun u b store videos) := by
    rw [nukeRun]
    exact pfxInv_foldl (fun s x hs => pfxInv_nukeProcessVideo u s x hs) videos
      (NukeState.init b store) ⟨rfl, List.nodup_nil⟩
  have hmemrun : p ∈ (nukeRun u b store videos).processedS3Pfxs := by
    rw [nukeRun]
    exact pfx_mem_foldl_videos u p hp videos (NukeState.init b store) v hv hmem
  constructor
  · rw [count_deleteUnderPfxCall, hinv.1]
    exact List.count_eq_one_of_mem hinv.2 hmemrun
  · intro w hw
    rw [nukeRun]
    exact marks_mem_foldl_videos u videos (NukeState.init b store) w hw

/-- Witness for C4's corrected dedup theorem: the two permlink-sharing
videos of the counterexample, run through the nuke loop. -/
theorem c4_nuke_pfx_dedup_witness :
    ("abc/1080p/" ≠ "" ∧ c4VideoA ∈ [c4VideoA, c4VideoB] ∧
     "abc/1080p/" ∈ (getS3Paths c4VideoA).prefixes) ∧
    ((nukeRun "u" emptyBackend [c4VideoA, c4VideoB]
        [c4VideoA, c4VideoB]).ops.count
      (EngineOp.deleteUnderPfxCall "abc/1080p/") = 1 ∧
     ∀ w ∈ [c4VideoA, c4VideoB], EngineOp.markCleanedWrite w.id ∈
       (nukeRun "u" emptyBackend [c4VideoA, c4VideoB] [c4VideoA, c4VideoB]).ops) :=
  ⟨⟨by decide, by decide, by decide⟩,
   c4_nuke_pfx_dedup "u" emptyBackend [c4VideoA, c4VideoB] [c4VideoA, c4VideoB]
     "abc/1080p/" c4VideoA (by decide) (by decide) (by decide)⟩

end StorageAdmin
